import Mathlib

/-!
Shallow embedding of `src/.dagger/suggestions.py`: the diff-to-suggestion
extraction core of the repository.  It consists of a raw unified-diff text
scanner (`_parse_raw_diff`), a structured hunk scanner for GitPython objects
(`_parse_git_diffs` / `_parse_hunk`), and a dispatch facade (`parse_diff`).
Python strings are modelled as `String` with character-list helpers; Python
`int` as `Int`; the mutated local variables of each scanner as explicit state
records folded over the input lines.
-/

namespace Suggestions

/-- Represents a code suggestion for a specific file and line (the
`CodeSuggestion` dataclass of the source).  The `line` field is an `Int`
because the raw scanner computes it as `new_start - 1` plus increments, which
can be negative before any increment happens. -/
structure CodeSuggestion where
  file : String
  line : Int
  suggestion : List String
deriving DecidableEq, Repr

/-- Boolean test that `p` is a leading segment of `l`: the character-list
model of Python `str.startswith`. -/
def listStarts : List Char → List Char → Bool
  | [], _ => true
  | _ :: _, [] => false
  | p :: ps, c :: cs => if p = c then listStarts ps cs else false

/-- Model of Python `line.startswith(pat)`. -/
def strStarts (s pat : String) : Bool := listStarts pat.toList s.toList

/-- Model of Python `line[n:]`. -/
def strDrop (s : String) (n : Nat) : String := String.mk (s.toList.drop n)

/-- Numeric value of a run of decimal digit characters (Python `int(...)` on
the digits captured by a regex group). -/
def digitsToNat (cs : List Char) : Nat :=
  cs.foldl (fun n c => n * 10 + (c.toNat - 48)) 0

/-- Helper for `pySplitlines`: walk the characters, accumulating the current
line in reverse; a trailing line is emitted only when non-empty, matching
Python `str.splitlines` (no empty final entry for a trailing newline). -/
def splitLinesGo : List Char → List Char → List String
  | [], cur => if cur = [] then [] else [String.mk cur.reverse]
  | '\n' :: rest, cur => String.mk cur.reverse :: splitLinesGo rest []
  | c :: rest, cur => splitLinesGo rest (c :: cur)

/-- Model of Python `diff_text.splitlines()` (newline-separated lines, no
trailing empty line for input ending in a newline). -/
def pySplitlines (s : String) : List String := splitLinesGo s.toList []

/-- Model of `file_regex = re.compile(r"^\+\+\+ b/(.+)")` applied with
`.match`: the line must start with `+++ b/` and have at least one further
character; the captured group is everything after that marker. -/
def fileMatch (line : String) : Option String :=
  if strStarts line "+++ b/" ∧ 6 < line.toList.length then
    some (strDrop line 6)
  else none

/-- Rightmost occurrence, in a character list, of a space followed by `+` and
at least one digit; returns the value of the maximal digit run there.  This is
the backtracking behaviour of the greedy `.*` in the hunk regex. -/
def lastPlusNum : List Char → Option Nat
  | [] => none
  | c :: rest =>
    match lastPlusNum rest with
    | some n => some n
    | none =>
      match c, rest with
      | ' ', '+' :: ds =>
        let dl := ds.takeWhile Char.isDigit
        if dl = [] then none else some (digitsToNat dl)
      | _, _ => none

/-- Model of `line_regex = re.compile(r"^@@ .* \+(\d+),?")` applied with
`.match`: the line must start with `@@ ` and somewhere after that contain a
space, a `+` and digits; the captured group is the digit run at the rightmost
such position (greedy `.*`). -/
def hunkMatch (line : String) : Option Nat :=
  if strStarts line "@@ " then lastPlusNum (line.toList.drop 3) else none

/-- Working state of `_parse_raw_diff`: the local variables `suggestions`,
`current_file`, `current_line`, `new_code` and `removal_reached`. -/
structure RawState where
  suggestions : List CodeSuggestion
  current_file : String
  current_line : Int
  new_code : List String
  removal_reached : Bool
deriving DecidableEq, Repr

/-- Initial state of `_parse_raw_diff` before the loop. -/
def initRaw : RawState := ⟨[], "", 0, [], false⟩

/-- Tail of the loop body of `_parse_raw_diff` for lines that are neither
headers nor added lines: the conditional cursor increment (`if not
removal_reached: current_line += 1`) followed by the removed-line flush. -/
def rawOther (s : RawState) (line : String) : RawState :=
  let s1 := if s.removal_reached then s
            else { s with current_line := s.current_line + 1 }
  if strStarts line "-" ∧ ¬ strStarts line "---" then
    if s1.new_code ≠ [] ∧ s1.current_file ≠ "" then
      { s1 with
        suggestions := s1.suggestions ++
          [⟨s1.current_file, s1.current_line, s1.new_code⟩],
        new_code := [], removal_reached := true }
    else { s1 with removal_reached := true }
  else s1

/-- One iteration of the `for line in diff_text.splitlines()` loop of
`_parse_raw_diff`, mirroring the branch order of the source: file header
first, then hunk header, then added line, then `rawOther`. -/
def rawStep (s : RawState) (line : String) : RawState :=
  match fileMatch line with
  | some f => { s with current_file := f }
  | none =>
    match hunkMatch line with
    | some n =>
      { s with current_line := (n : Int) - 1, new_code := [],
               removal_reached := false }
    | none =>
      if strStarts line "+" ∧ ¬ strStarts line "+++" then
        { s with new_code := s.new_code ++ [strDrop line 1] }
      else rawOther s line

/-- End-of-input flush of `_parse_raw_diff`: a pending non-empty buffer with a
known file is emitted at the last computed cursor value. -/
def rawFinish (s : RawState) : List CodeSuggestion :=
  if s.new_code ≠ [] ∧ s.current_file ≠ "" then
    s.suggestions ++ [⟨s.current_file, s.current_line, s.new_code⟩]
  else s.suggestions

/-- The raw scanner as a function of the already-split line list. -/
def parseRawLines (lines : List String) : List CodeSuggestion :=
  rawFinish (lines.foldl rawStep initRaw)

/-- Model of `_parse_raw_diff(diff_text)`. -/
def parseRawDiff (t : String) : List CodeSuggestion :=
  parseRawLines (pySplitlines t)

/-- Model of the public alias `parse_raw_diff`. -/
def parse_raw_diff (t : String) : List CodeSuggestion := parseRawDiff t

/-- One origin-tagged line of a GitPython hunk (`line.line_origin` is a
one-character string in GitPython, modelled as `Char`). -/
structure HunkLine where
  line_origin : Char
  content : String
deriving DecidableEq, Repr

/-- One hunk of a GitPython diff: an ordered sequence of tagged lines. -/
structure Hunk where
  lines : List HunkLine
deriving DecidableEq, Repr

/-- Model of a GitPython `Diff` object as consumed by `_parse_git_diffs`:
binary flag, the two optional paths, and the hunks iterated by the loop. -/
structure GitDiff where
  is_binary : Bool
  b_path : Option String
  a_path : Option String
  hunks : List Hunk
deriving DecidableEq, Repr

/-- Model of `file_path = diff.b_path or diff.a_path` followed by
`if not file_path: continue` (Python truthiness: `None` and `""` are falsy);
`none` means the file is skipped. -/
def diffPath (d : GitDiff) : Option String :=
  let p := match d.b_path with
    | some s => if s = "" then d.a_path else some s
    | none => d.a_path
  match p with
  | some s => if s = "" then none else some s
  | none => none

/-- Working state inside `_parse_hunk`: accumulated suggestions, the cursor,
and the pending `new_code` buffer. -/
structure HunkState where
  suggestions : List CodeSuggestion
  current_line : Int
  new_code : List String
deriving DecidableEq, Repr

/-- One iteration of the `for line in hunk.lines` loop of `_parse_hunk`. -/
def hunkStep (fp : String) (st : HunkState) (l : HunkLine) : HunkState :=
  if l.line_origin = ' ' then
    let st1 := if st.new_code ≠ [] then
        { st with
          suggestions := st.suggestions ++
            [⟨fp, st.current_line, st.new_code⟩],
          new_code := [] }
      else st
    { st1 with current_line := st1.current_line + 1 }
  else if l.line_origin = '+' then
    { st with new_code := st.new_code ++ [l.content],
              current_line := st.current_line + 1 }
  else if l.line_origin = '-' then
    if st.new_code ≠ [] then
      { st with
        suggestions := st.suggestions ++
          [⟨fp, st.current_line, st.new_code⟩],
        new_code := [] }
    else st
  else st

/-- Model of `_parse_hunk(hunk, file_path, start_line, suggestions)`: the
returned pair is the updated suggestion list (the Python function mutates the
list) and the returned `current_line`. -/
def parseHunk (h : Hunk) (fp : String) (start_line : Int)
    (sugs : List CodeSuggestion) : List CodeSuggestion × Int :=
  let st := h.lines.foldl (hunkStep fp) ⟨sugs, start_line, []⟩
  (if st.new_code ≠ [] then
     st.suggestions ++ [⟨fp, st.current_line, st.new_code⟩]
   else st.suggestions,
   st.current_line)

/-- The per-file loop of `_parse_git_diffs`: `current_line` starts at `0` and
is threaded from hunk to hunk through the return value of `_parse_hunk`. -/
def parseFileHunks (fp : String) : List Hunk → Int → List CodeSuggestion →
    List CodeSuggestion
  | [], _, sugs => sugs
  | h :: hs, cl, sugs =>
    let r := parseHunk h fp cl sugs
    parseFileHunks fp hs r.2 r.1

/-- Model of `_parse_git_diffs(diffs)`. -/
def parseGitDiffs (diffs : List GitDiff) : List CodeSuggestion :=
  diffs.foldl (fun sugs d =>
    if d.is_binary then sugs
    else
      match diffPath d with
      | none => sugs
      | some fp => parseFileHunks fp d.hunks 0 sugs) []

/-- The dynamic input shapes `parse_diff` can receive: a raw text string, a
single GitPython `Diff`, a list of them, or any other Python value. -/
inductive DiffInput where
  | text (s : String)
  | gitDiff (d : GitDiff)
  | gitList (ds : List GitDiff)
  | other
deriving DecidableEq, Repr

/-- Model of the facade `parse_diff(diff_input)`.  The `gitSupport` flag
models the module-level `GIT_SUPPORT` constant (whether the GitPython import
succeeded); `Except.error` models the `ValueError` raised for unsupported
input shapes. -/
def parse_diff (gitSupport : Bool) : DiffInput → Except String (List CodeSuggestion)
  | .text s => .ok (parseRawDiff s)
  | .gitList ds =>
    if gitSupport then .ok (parseGitDiffs ds)
    else .error "Unsupported diff input type"
  | .gitDiff d =>
    if gitSupport then .ok (parseGitDiffs [d])
    else .error "Unsupported diff input type"
  | .other => .error "Unsupported diff input type"

/-- Input shapes the facade accepts without raising: diff text always,
structured records only when GitPython support is available. -/
def supportedShape (gitSupport : Bool) : DiffInput → Prop
  | .text _ => True
  | .gitDiff _ => gitSupport = true
  | .gitList _ => gitSupport = true
  | .other => False

/-- Coupled cursor invariant of the structured scanner: the cursor is never
negative, a non-empty pending buffer forces a cursor of at least one (each
buffered added line advanced it), and all emitted anchors are at least
one. -/
def hunkInv (st : HunkState) : Prop :=
  0 ≤ st.current_line ∧ (st.new_code ≠ [] → 1 ≤ st.current_line) ∧
  ∀ x ∈ st.suggestions, 1 ≤ x.line

/-! Helper lemmas about the lexical tests and the scanner steps. -/

theorem listStarts_cons {a c : Char} {ps cs : List Char}
    (h : listStarts (a :: ps) (c :: cs) = true) :
    a = c ∧ listStarts ps cs = true := by
  unfold listStarts at h
  split at h
  · exact ⟨by assumption, h⟩
  · exact absurd h (by simp)

theorem strStarts_head {line : String} (pat1 pat2 : String) {c1 c2 : Char}
    {r1 r2 : List Char} (e1 : pat1.toList = c1 :: r1)
    (e2 : pat2.toList = c2 :: r2) (h1 : strStarts line pat1 = true)
    (h2 : strStarts line pat2 = true) : c1 = c2 := by
  unfold strStarts at h1 h2
  rw [e1] at h1
  rw [e2] at h2
  cases hl : line.toList with
  | nil => rw [hl] at h1; exact absurd h1 (by simp [listStarts])
  | cons c cs =>
    rw [hl] at h1 h2
    have k1 := (listStarts_cons h1).1
    have k2 := (listStarts_cons h2).1
    rw [k1, k2]

/-- A line matching the hunk-header pattern cannot also match the new-file
header pattern (they require different first characters), so the hunk branch
of `rawStep` is reached whenever `hunkMatch` succeeds. -/
theorem hunkMatch_fileMatch_disjoint {line : String} {n : Nat}
    (h : hunkMatch line = some n) : fileMatch line = none := by
  unfold hunkMatch at h
  split at h
  · next hs =>
    unfold fileMatch
    rw [if_neg]
    rintro ⟨hf, -⟩
    have : '+' = '@' := strStarts_head "+++ b/" "@@ " rfl rfl hf hs
    exact absurd this (by decide)
  · exact absurd h (by simp)

/-- A captured new-file path is never the empty string (the regex group `.+`
requires at least one character). -/
theorem fileMatch_some_ne_empty {line : String} {f : String}
    (h : fileMatch line = some f) : f ≠ "" := by
  unfold fileMatch at h
  split at h
  · next hc =>
    cases h
    intro he
    have hd : line.toList.drop 6 = [] := congrArg String.data he
    have hlen := congrArg List.length hd
    rw [List.length_drop, List.length_nil] at hlen
    exact absurd hc.2 (by omega)
  · exact absurd h (by simp)

/-- Unfolding `rawStep` on a new-file header line. -/
theorem rawStep_file {s : RawState} {line f : String}
    (h : fileMatch line = some f) :
    rawStep s line = { s with current_file := f } := by
  unfold rawStep
  rw [h]

/-- Unfolding `rawStep` on a hunk-header line. -/
theorem rawStep_hunk {s : RawState} {line : String} {n : Nat}
    (h : hunkMatch line = some n) :
    rawStep s line =
      { s with current_line := (n : Int) - 1, new_code := [],
               removal_reached := false } := by
  unfold rawStep
  rw [hunkMatch_fileMatch_disjoint h, h]

/-- Unfolding `rawStep` on an added line. -/
theorem rawStep_added {s : RawState} {line : String}
    (hf : fileMatch line = none) (hh : hunkMatch line = none)
    (hp : strStarts line "+" ∧ ¬ strStarts line "+++") :
    rawStep s line = { s with new_code := s.new_code ++ [strDrop line 1] } := by
  unfold rawStep
  rw [hf, hh, if_pos hp]

/-- Unfolding `rawStep` on any other line. -/
theorem rawStep_other {s : RawState} {line : String}
    (hf : fileMatch line = none) (hh : hunkMatch line = none)
    (hp : ¬ (strStarts line "+" ∧ ¬ strStarts line "+++")) :
    rawStep s line = rawOther s line := by
  unfold rawStep
  rw [hf, hh, if_neg hp]

/-- Cursor behaviour of the shared tail: lines reaching `rawOther` advance
the cursor exactly when the removal flag is unset. -/
theorem rawOther_current_line (s : RawState) (line : String) :
    (rawOther s line).current_line =
      if s.removal_reached then s.current_line else s.current_line + 1 := by
  simp only [rawOther]
  split_ifs <;> simp_all

/-- Removal-flag behaviour of the shared tail: a removed line sets the flag,
any other line reaching this branch leaves it unchanged. -/
theorem rawOther_removal (s : RawState) (line : String) :
    (rawOther s line).removal_reached =
      if strStarts line "-" ∧ ¬ strStarts line "---" then true
      else s.removal_reached := by
  simp only [rawOther]
  split_ifs <;> simp_all

/-- File-tracking behaviour of the shared tail: `current_file` is never
modified there. -/
theorem rawOther_current_file (s : RawState) (line : String) :
    (rawOther s line).current_file = s.current_file := by
  simp only [rawOther]
  split_ifs <;> simp_all

/-- Emission behaviour of the shared tail: either the suggestion list and the
pending buffer are unchanged, or (only when both flush guards hold) the
pending buffer is appended as one suggestion anchored at the updated cursor
and the buffer is cleared. -/
theorem rawOther_suggestions (s : RawState) (line : String) :
    ((rawOther s line).suggestions = s.suggestions ∧
     (rawOther s line).new_code = s.new_code) ∨
    (s.new_code ≠ [] ∧ s.current_file ≠ "" ∧
     (rawOther s line).suggestions = s.suggestions ++
       [⟨s.current_file,
         (if s.removal_reached then s.current_line else s.current_line + 1),
         s.new_code⟩] ∧
     (rawOther s line).new_code = []) := by
  simp only [rawOther]
  split_ifs <;> first
    | (left; constructor <;> simp_all <;> done)
    | (right; refine ⟨?_, ?_, ?_, ?_⟩ <;> simp_all)

/-- Flush equation of the shared tail in the emitting case. -/
theorem rawOther_flush (s : RawState) (line : String)
    (hd : strStarts line "-" ∧ ¬ strStarts line "---")
    (hnc : s.new_code ≠ []) (hcf : s.current_file ≠ "") :
    (rawOther s line).suggestions = s.suggestions ++
      [⟨s.current_file,
        (if s.removal_reached then s.current_line else s.current_line + 1),
        s.new_code⟩] ∧
    (rawOther s line).new_code = [] := by
  simp only [rawOther]
  split_ifs <;> simp_all

/-- A fold preserves any invariant preserved by its step function. -/
theorem foldl_preserve {α β : Type} {P : α → Prop} {f : α → β → α}
    (h : ∀ a b, P a → P (f a b)) :
    ∀ (l : List β) (a : α), P a → P (List.foldl f a l)
  | [], _, ha => ha
  | b :: bs, a, ha => foldl_preserve h bs (f a b) (h a b ha)

/-- A fold over elements all satisfying `Q` preserves any invariant the step
function preserves on such elements. -/
theorem foldl_preserve_mem {α β : Type} {P : α → Prop} {Q : β → Prop}
    {f : α → β → α} (h : ∀ a b, Q b → P a → P (f a b)) :
    ∀ (l : List β), (∀ b ∈ l, Q b) → ∀ a, P a → P (List.foldl f a l)
  | [], _, _, ha => ha
  | b :: bs, hq, a, ha =>
    foldl_preserve_mem h bs (fun x hx => hq x (List.mem_cons_of_mem _ hx))
      (f a b) (h a b (hq b (List.mem_cons_self _ _)) ha)

/-- Emission behaviour of one structured-scanner step: the suggestion list is
either unchanged or extended by the non-empty pending buffer anchored at the
pre-step cursor. -/
theorem hunkStep_cases (fp : String) (st : HunkState) (l : HunkLine) :
    (hunkStep fp st l).suggestions = st.suggestions ∨
    (st.new_code ≠ [] ∧
     (hunkStep fp st l).suggestions =
       st.suggestions ++ [⟨fp, st.current_line, st.new_code⟩]) := by
  simp only [hunkStep]
  split_ifs <;> first
    | (left; simp_all; done)
    | (right; exact ⟨by simp_all, by simp_all⟩)

/-- Pending-buffer behaviour of one structured-scanner step: the buffer is
cleared, kept, or extended by the content of this (added) line. -/
theorem hunkStep_new_code (fp : String) (st : HunkState) (l : HunkLine) :
    (hunkStep fp st l).new_code = [] ∨
    (hunkStep fp st l).new_code = st.new_code ∨
    (hunkStep fp st l).new_code = st.new_code ++ [l.content] := by
  simp only [hunkStep]
  split_ifs <;> first
    | (left; simp_all; done)
    | (right; left; simp_all; done)
    | (right; right; simp_all)

/-- A usable path returned by `diffPath` is never the empty string (Python
truthiness: empty strings are rejected like `None`). -/
theorem diffPath_some_ne_empty {d : GitDiff} {fp : String}
    (h : diffPath d = some fp) : fp ≠ "" := by
  have key : ∀ (p : Option String),
      (match p with
       | some s => if s = "" then none else some s
       | none => none) = some fp → fp ≠ "" := by
    intro p hp
    cases p with
    | none => exact absurd hp (by simp)
    | some s =>
      change (if s = "" then none else some s : Option String) = some fp at hp
      by_cases hs : s = ""
      · rw [if_pos hs] at hp; exact absurd hp (by simp)
      · rw [if_neg hs] at hp
        cases hp
        exact hs
  exact key _ h

/-- Goodness invariant (non-empty file, non-empty block) through one
structured-scanner step. -/
theorem hunkStep_good {fp : String} (hfp : fp ≠ "") (st : HunkState)
    (l : HunkLine)
    (h : ∀ x ∈ st.suggestions, x.file ≠ "" ∧ x.suggestion ≠ []) :
    ∀ x ∈ (hunkStep fp st l).suggestions, x.file ≠ "" ∧ x.suggestion ≠ [] := by
  rcases hunkStep_cases fp st l with hc | ⟨hnc, hc⟩
  · rw [hc]; exact h
  · rw [hc]
    intro x hx
    rcases List.mem_append.mp hx with hx | hx
    · exact h x hx
    · rcases List.mem_singleton.mp hx with rfl
      exact ⟨hfp, hnc⟩

/-- Goodness invariant through one whole hunk, including its trailing
flush. -/
theorem parseHunk_good {fp : String} (hfp : fp ≠ "") (h : Hunk) (cl : Int)
    {sugs : List CodeSuggestion}
    (hs : ∀ x ∈ sugs, x.file ≠ "" ∧ x.suggestion ≠ []) :
    ∀ x ∈ (parseHunk h fp cl sugs).1, x.file ≠ "" ∧ x.suggestion ≠ [] := by
  have hfold := foldl_preserve
    (P := fun st : HunkState =>
      ∀ x ∈ st.suggestions, x.file ≠ "" ∧ x.suggestion ≠ [])
    (f := hunkStep fp) (fun a b ha => hunkStep_good hfp a b ha)
    h.lines ⟨sugs, cl, []⟩ hs
  simp only [parseHunk]
  split_ifs with hg
  · intro x hx
    rcases List.mem_append.mp hx with hx | hx
    · exact hfold x hx
    · rcases List.mem_singleton.mp hx with rfl
      exact ⟨hfp, hg⟩
  · exact hfold

/-- Goodness invariant through all hunks of one file. -/
theorem parseFileHunks_good {fp : String} (hfp : fp ≠ "") (hs : List Hunk) :
    ∀ (cl : Int) (sugs : List CodeSuggestion),
      (∀ x ∈ sugs, x.file ≠ "" ∧ x.suggestion ≠ []) →
      ∀ x ∈ parseFileHunks fp hs cl sugs, x.file ≠ "" ∧ x.suggestion ≠ [] := by
  induction hs with
  | nil => intro cl sugs h; exact h
  | cons hd tl ih =>
    intro cl sugs h
    exact ih _ _ (parseHunk_good hfp hd cl h)

/-- C5 structured part: every suggestion emitted by `_parse_git_diffs` has a
non-empty file and a non-empty block. -/
theorem parseGitDiffs_good (ds : List GitDiff) :
    ∀ x ∈ parseGitDiffs ds, x.file ≠ "" ∧ x.suggestion ≠ [] := by
  unfold parseGitDiffs
  refine foldl_preserve
    (P := fun sugs : List CodeSuggestion =>
      ∀ x ∈ sugs, x.file ≠ "" ∧ x.suggestion ≠ [])
    ?_ ds [] (by simp)
  intro sugs d h
  by_cases hb : d.is_binary
  · simpa [hb] using h
  · simp only [hb, if_false, Bool.false_eq_true]
    cases hp : diffPath d with
    | none => exact h
    | some fp => exact parseFileHunks_good (diffPath_some_ne_empty hp) d.hunks 0 sugs h

theorem hunkStep_inv (fp : String) (st : HunkState) (l : HunkLine)
    (h : hunkInv st) : hunkInv (hunkStep fp st l) := by
  obtain ⟨h0, h1, h2⟩ := h
  simp only [hunkStep]
  split_ifs with c1 c2 c3 c4 c5
  · refine ⟨by show 0 ≤ st.current_line + 1; omega,
      fun hx => absurd rfl hx, ?_⟩
    intro x hx
    rcases List.mem_append.mp hx with hx | hx
    · exact h2 x hx
    · rcases List.mem_singleton.mp hx with rfl
      exact h1 c2
  · exact ⟨by show 0 ≤ st.current_line + 1; omega,
      fun _ => by show 1 ≤ st.current_line + 1; omega, h2⟩
  · exact ⟨by show 0 ≤ st.current_line + 1; omega,
      fun _ => by show 1 ≤ st.current_line + 1; omega, h2⟩
  · refine ⟨h0, fun hx => absurd rfl hx, ?_⟩
    intro x hx
    rcases List.mem_append.mp hx with hx | hx
    · exact h2 x hx
    · rcases List.mem_singleton.mp hx with rfl
      exact h1 c5
  · exact ⟨h0, h1, h2⟩
  · exact ⟨h0, h1, h2⟩

theorem parseHunk_inv (h : Hunk) (fp : String) {cl : Int}
    {sugs : List CodeSuggestion} (hcl : 0 ≤ cl)
    (hs : ∀ x ∈ sugs, 1 ≤ x.line) :
    (∀ x ∈ (parseHunk h fp cl sugs).1, 1 ≤ x.line) ∧
    0 ≤ (parseHunk h fp cl sugs).2 := by
  have hfold := foldl_preserve (P := hunkInv) (f := hunkStep fp)
    (fun a b ha => hunkStep_inv fp a b ha) h.lines ⟨sugs, cl, []⟩
    ⟨hcl, fun hx => absurd rfl hx, hs⟩
  obtain ⟨f0, f1, f2⟩ := hfold
  constructor
  · simp only [parseHunk]
    split_ifs with hg
    · intro x hx
      rcases List.mem_append.mp hx with hx | hx
      · exact f2 x hx
      · rcases List.mem_singleton.mp hx with rfl
        exact f1 hg
    · exact f2
  · exact f0

theorem parseFileHunks_inv (fp : String) (hs : List Hunk) :
    ∀ (cl : Int) (sugs : List CodeSuggestion), 0 ≤ cl →
      (∀ x ∈ sugs, 1 ≤ x.line) →
      ∀ x ∈ parseFileHunks fp hs cl sugs, 1 ≤ x.line := by
  induction hs with
  | nil => intro cl sugs _ h; exact h
  | cons hd tl ih =>
    intro cl sugs hcl h
    have hh := parseHunk_inv hd fp hcl h
    simp only [parseFileHunks]
    exact ih _ _ hh.2 hh.1

/-- Anchor lower bound for the structured scanner. -/
theorem parseGitDiffs_line_bound (ds : List GitDiff) :
    ∀ x ∈ parseGitDiffs ds, 1 ≤ x.line := by
  unfold parseGitDiffs
  refine foldl_preserve
    (P := fun sugs : List CodeSuggestion => ∀ x ∈ sugs, 1 ≤ x.line)
    ?_ ds [] (by simp)
  intro sugs d h
  by_cases hb : d.is_binary
  · simpa [hb] using h
  · simp only [hb, if_false, Bool.false_eq_true]
    cases hp : diffPath d with
    | none => exact h
    | some fp =>
      exact parseFileHunks_inv fp d.hunks 0 sugs (by omega) h

/-- Emission behaviour of one raw-scanner step: the suggestion list is either
unchanged or extended, under both flush guards, by the pending buffer
attributed to the current file. -/
theorem rawStep_suggestions_cases (s : RawState) (line : String) :
    (rawStep s line).suggestions = s.suggestions ∨
    (s.new_code ≠ [] ∧ s.current_file ≠ "" ∧
     ∃ n : Int, (rawStep s line).suggestions =
       s.suggestions ++ [⟨s.current_file, n, s.new_code⟩]) := by
  cases hf : fileMatch line with
  | some f => rw [rawStep_file hf]; exact Or.inl rfl
  | none =>
    cases hh : hunkMatch line with
    | some n => rw [rawStep_hunk hh]; exact Or.inl rfl
    | none =>
      by_cases hp : (strStarts line "+" ∧ ¬ strStarts line "+++")
      · rw [rawStep_added hf hh hp]; exact Or.inl rfl
      · rw [rawStep_other hf hh hp]
        rcases rawOther_suggestions s line with ⟨h1, _⟩ | ⟨h1, h2, h3, _⟩
        · exact Or.inl h1
        · exact Or.inr ⟨h1, h2, _, h3⟩

/-- Pending-buffer behaviour of one raw-scanner step: cleared, kept, or
extended by one stripped added line. -/
theorem rawStep_new_code_cases (s : RawState) (line : String) :
    (rawStep s line).new_code = [] ∨
    (rawStep s line).new_code = s.new_code ∨
    ∃ x, (rawStep s line).new_code = s.new_code ++ [x] := by
  cases hf : fileMatch line with
  | some f => rw [rawStep_file hf]; exact Or.inr (Or.inl rfl)
  | none =>
    cases hh : hunkMatch line with
    | some n => rw [rawStep_hunk hh]; exact Or.inl rfl
    | none =>
      by_cases hp : (strStarts line "+" ∧ ¬ strStarts line "+++")
      · rw [rawStep_added hf hh hp]; exact Or.inr (Or.inr ⟨_, rfl⟩)
      · rw [rawStep_other hf hh hp]
        rcases rawOther_suggestions s line with ⟨_, h1⟩ | ⟨_, _, _, h1⟩
        · exact Or.inr (Or.inl h1)
        · exact Or.inl h1

/-- The current file is untouched by any non-header line. -/
theorem rawStep_file_preserved (s : RawState) {line : String}
    (hf : fileMatch line = none) :
    (rawStep s line).current_file = s.current_file := by
  cases hh : hunkMatch line with
  | some n => rw [rawStep_hunk hh]
  | none =>
    by_cases hp : (strStarts line "+" ∧ ¬ strStarts line "+++")
    · rw [rawStep_added hf hh hp]
    · rw [rawStep_other hf hh hp]; exact rawOther_current_file s line

/-- C10 step form: a once-set current file can never become empty again. -/
theorem rawStep_file_ne (s : RawState) (line : String)
    (h : s.current_file ≠ "") : (rawStep s line).current_file ≠ "" := by
  cases hf : fileMatch line with
  | some f =>
    rw [rawStep_file hf]
    simpa using fileMatch_some_ne_empty hf
  | none => rw [rawStep_file_preserved s hf]; exact h

/-- Goodness of every raw-scanner state reached from a good state. -/
theorem rawStep_good (s : RawState) (line : String)
    (h : ∀ x ∈ s.suggestions, x.file ≠ "" ∧ x.suggestion ≠ []) :
    ∀ x ∈ (rawStep s line).suggestions, x.file ≠ "" ∧ x.suggestion ≠ [] := by
  rcases rawStep_suggestions_cases s line with hc | ⟨hnc, hcf, n, hc⟩
  · rw [hc]; exact h
  · rw [hc]
    intro x hx
    rcases List.mem_append.mp hx with hx | hx
    · exact h x hx
    · rcases List.mem_singleton.mp hx with rfl
      exact ⟨hcf, hnc⟩

/-- Goodness after the end-of-input flush. -/
theorem rawFinish_good {s : RawState}
    (h : ∀ x ∈ s.suggestions, x.file ≠ "" ∧ x.suggestion ≠ []) :
    ∀ x ∈ rawFinish s, x.file ≠ "" ∧ x.suggestion ≠ [] := by
  unfold rawFinish
  split_ifs with hg
  · intro x hx
    rcases List.mem_append.mp hx with hx | hx
    · exact h x hx
    · rcases List.mem_singleton.mp hx with rfl
      exact ⟨hg.2, hg.1⟩
  · exact h

/-- C5 raw part: every suggestion emitted by `_parse_raw_diff` has a
non-empty file and a non-empty block. -/
theorem parseRawLines_good (lines : List String) :
    ∀ x ∈ parseRawLines lines, x.file ≠ "" ∧ x.suggestion ≠ [] := by
  unfold parseRawLines
  exact rawFinish_good
    (foldl_preserve
      (P := fun s : RawState =>
        ∀ x ∈ s.suggestions, x.file ≠ "" ∧ x.suggestion ≠ [])
      (fun a b ha => rawStep_good a b ha) lines initRaw (by simp [initRaw]))

/-- Tracking lemma for sections with no new-file header: the current file is
unchanged and every newly discovered suggestion is attributed to it. -/
theorem foldl_rawStep_track (lines : List String) :
    ∀ (s : RawState), (∀ l ∈ lines, fileMatch l = none) →
      (List.foldl rawStep s lines).current_file = s.current_file ∧
      ∃ t, (List.foldl rawStep s lines).suggestions = s.suggestions ++ t ∧
           ∀ x ∈ t, x.file = s.current_file := by
  induction lines with
  | nil => exact fun s _ => ⟨rfl, [], by simp, by simp⟩
  | cons l ls ih =>
    intro s hq
    have hf : fileMatch l = none := hq l (List.mem_cons_self _ _)
    have hrest : ∀ x ∈ ls, fileMatch x = none :=
      fun x hx => hq x (List.mem_cons_of_mem _ hx)
    have h1 := rawStep_file_preserved s hf
    obtain ⟨h2, t1, h3, h4⟩ := ih (rawStep s l) hrest
    refine ⟨by rw [List.foldl_cons, h2, h1], ?_⟩
    rcases rawStep_suggestions_cases s l with h5 | ⟨-, -, n, h5⟩
    · refine ⟨t1, by rw [List.foldl_cons, h3, h5], ?_⟩
      intro x hx
      rw [← h1]
      exact h4 x hx
    · refine ⟨⟨s.current_file, n, s.new_code⟩ :: t1, ?_, ?_⟩
      · rw [List.foldl_cons, h3, h5, List.append_assoc]
        rfl
      · intro x hx
        rcases List.mem_cons.mp hx with rfl | hx
        · rfl
        · rw [← h1]
          exact h4 x hx

/-- With no new-file header anywhere, the raw scanner emits nothing. -/
theorem parseRawLines_no_file (lines : List String)
    (hq : ∀ l ∈ lines, fileMatch l = none) : parseRawLines lines = [] := by
  obtain ⟨h1, t, h2, h4⟩ := foldl_rawStep_track lines initRaw hq
  have hinit : initRaw.current_file = "" := rfl
  have hsug : ∀ x ∈ (List.foldl rawStep initRaw lines).suggestions,
      x.file ≠ "" ∧ x.suggestion ≠ [] :=
    foldl_preserve
      (P := fun s : RawState =>
        ∀ x ∈ s.suggestions, x.file ≠ "" ∧ x.suggestion ≠ [])
      (fun a b ha => rawStep_good a b ha) lines initRaw (by simp [initRaw])
  have ht : t = [] := by
    rcases t with - | ⟨x, xs⟩
    · rfl
    · exfalso
      have hx : x ∈ (List.foldl rawStep initRaw lines).suggestions := by
        rw [h2]; simp
      exact (hsug x hx).1 ((h4 x (by simp)).trans hinit)
  unfold parseRawLines rawFinish
  split_ifs with hg
  · exact absurd (h1.trans hinit) hg.2
  · rw [h2, ht]
    simp [initRaw]

/-- C3: parsing the raw diff text consisting of the lines `--- a/foo.py`,
`+++ b/foo.py`, `@@ -1,3 +1,3 @@`, ` keep`, `+new_line`, `-old_line` yields
exactly one suggestion with file `foo.py`, line `2` and suggestion
`["new_line"]`. -/
theorem C3_concrete_case_A :
    parse_raw_diff
      "--- a/foo.py\n+++ b/foo.py\n@@ -1,3 +1,3 @@\n keep\n+new_line\n-old_line"
      = [⟨"foo.py", 2, ["new_line"]⟩] := by decide

/-- C4: for raw diff text with a file header, a hunk whose new-file range
starts at line 10, one leading context line, then two consecutive added lines
followed by one removed line, the raw scanner emits exactly one suggestion
anchored at line 11 whose suggestion list contains both added lines in their
original order. -/
theorem C4_concrete_case_B :
    parse_raw_diff
      "--- a/foo.py\n+++ b/foo.py\n@@ -10,2 +10,3 @@\n ctx\n+added one\n+added two\n-removed"
      = [⟨"foo.py", 11, ["added one", "added two"]⟩] := by decide

/-- C8: the same diff content — one file, two hunks (new ranges starting at
lines 1 and 10), each hunk one added line followed by one removed line —
expressed once as raw unified-diff text and once as a structured GitPython
record, makes the two scanners emit different anchor lines (10 versus 2 for
the second hunk): the two variants are not extensionally equal. -/
theorem C8_variants_disagree :
    parse_raw_diff
        "--- a/f\n+++ b/f\n@@ -1,1 +1,1 @@\n+a\n-x\n@@ -10,1 +10,1 @@\n+b\n-y"
      = [⟨"f", 1, ["a"]⟩, ⟨"f", 10, ["b"]⟩] ∧
    parseGitDiffs
        [⟨false, some "f", none,
          [⟨[⟨'+', "a"⟩, ⟨'-', "x"⟩]⟩, ⟨[⟨'+', "b"⟩, ⟨'-', "y"⟩]⟩]⟩]
      = [⟨"f", 1, ["a"]⟩, ⟨"f", 2, ["b"]⟩] ∧
    parse_raw_diff
        "--- a/f\n+++ b/f\n@@ -1,1 +1,1 @@\n+a\n-x\n@@ -10,1 +10,1 @@\n+b\n-y"
      ≠ parseGitDiffs
        [⟨false, some "f", none,
          [⟨[⟨'+', "a"⟩, ⟨'-', "x"⟩]⟩, ⟨[⟨'+', "b"⟩, ⟨'-', "y"⟩]⟩]⟩] := by
  refine ⟨by decide, by decide, by decide⟩

/-- C6 counterexample: the raw scanner, on input `+++ b/f\n+x` (added line
with no hunk header), emits a suggestion whose `line` field is `0`, so the
claim that every emitted suggestion of either variant has `line ≥ 1` is
false. -/
theorem C6_counterexample :
    parse_raw_diff "+++ b/f\n+x" = [⟨"f", 0, ["x"]⟩] ∧
    ¬ (∀ sug ∈ parse_raw_diff "+++ b/f\n+x", 1 ≤ sug.line) := by
  refine ⟨by decide, by decide⟩

/-- C7 counterexample: on input `+++ b/f\n@@ -1,2 +1,2 @@\n+a\n x\n-r` the
added line `+a` is separated from the removed line `-r` by the context line
` x`, yet the raw scanner still emits the suggestion `["a"]` when it reaches
the removal (the pending buffer is empty after the scan, so the emission
happened at the removed line, not at end of input).  This refutes the claim
that a suggestion flushed at a removed line has no intervening context lines
between its added lines and the removal. -/
theorem C7_counterexample :
    parse_raw_diff "+++ b/f\n@@ -1,2 +1,2 @@\n+a\n x\n-r" = [⟨"f", 2, ["a"]⟩] ∧
    (List.foldl rawStep initRaw
        (pySplitlines "+++ b/f\n@@ -1,2 +1,2 @@\n+a\n x\n-r")).new_code = [] := by
  refine ⟨by decide, by decide⟩

/-- Lines reaching the shared tail that are not removed lines leave both the
suggestion list and the pending buffer unchanged. -/
theorem rawOther_nonremoval (s : RawState) (line : String)
    (hd : ¬ (strStarts line "-" ∧ ¬ strStarts line "---")) :
    (rawOther s line).suggestions = s.suggestions ∧
    (rawOther s line).new_code = s.new_code := by
  simp only [rawOther]
  split_ifs <;> simp_all

/-- Records that are binary or lack a usable path are skipped entirely. -/
theorem parseGitDiffs_skip (ds : List GitDiff)
    (h : ∀ d ∈ ds, d.is_binary = true ∨ diffPath d = none) :
    parseGitDiffs ds = [] := by
  unfold parseGitDiffs
  refine foldl_preserve_mem
    (P := fun sugs : List CodeSuggestion => sugs = [])
    (Q := fun d : GitDiff => d.is_binary = true ∨ diffPath d = none)
    ?_ ds h [] rfl
  intro sugs d hQ hP
  rcases hQ with hb | hp
  · simp [hb, hP]
  · by_cases hb : d.is_binary
    · simp [hb, hP]
    · simp [hb, hp, hP]

/-- C1: in the raw-text scanner, a hunk-header line resets the state exactly
as claimed (cursor to the extracted new start minus one, buffer and removal
flag cleared), and every subsequent non-header, non-added line advances the
cursor by one exactly while the removal flag is unset: the first removed line
of a window advances it once and sets the flag, after which neither removed
nor context lines advance it until the next hunk reset. -/
theorem C1_raw_cursor_rules (s : RawState) (line : String) :
    (∀ n : Nat, hunkMatch line = some n →
       rawStep s line =
         { s with current_line := (n : Int) - 1, new_code := [],
                  removal_reached := false }) ∧
    (fileMatch line = none → hunkMatch line = none →
     ¬ (strStarts line "+" ∧ ¬ strStarts line "+++") →
       ((s.removal_reached = false →
           (rawStep s line).current_line = s.current_line + 1) ∧
        (s.removal_reached = true →
           (rawStep s line).current_line = s.current_line) ∧
        ((strStarts line "-" ∧ ¬ strStarts line "---") →
           (rawStep s line).removal_reached = true) ∧
        (¬ (strStarts line "-" ∧ ¬ strStarts line "---") →
           (rawStep s line).removal_reached = s.removal_reached))) := by
  constructor
  · intro n hn
    exact rawStep_hunk hn
  · intro hf hh hp
    rw [rawStep_other hf hh hp]
    refine ⟨?_, ?_, ?_, ?_⟩
    · intro hr
      rw [rawOther_current_line, hr]
      simp
    · intro hr
      rw [rawOther_current_line, hr]
      simp
    · intro hd
      rw [rawOther_removal, if_pos hd]
    · intro hd
      rw [rawOther_removal, if_neg hd]

/-- C1 witness: the cursor rules instantiated on concrete states and lines:
a hunk header resetting to `9 - 1` and then one increment, a context line
advancing the cursor only while the flag is unset, and a removed line
setting the flag. -/
theorem C1_witness :
    rawStep ⟨[], "f", 7, ["x"], true⟩ "@@ -4,2 +9,2 @@" = ⟨[], "f", 8, [], false⟩ ∧
    (rawStep ⟨[], "f", 7, [], false⟩ " ctx").current_line = 8 ∧
    (rawStep ⟨[], "f", 7, [], true⟩ " ctx").current_line = 7 ∧
    (rawStep ⟨[], "f", 7, [], false⟩ "-gone").removal_reached = true := by
  refine ⟨?_, ?_, ?_, ?_⟩
  · exact ((C1_raw_cursor_rules ⟨[], "f", 7, ["x"], true⟩
      "@@ -4,2 +9,2 @@").1 9 (by decide)).trans (by decide)
  · exact ((C1_raw_cursor_rules ⟨[], "f", 7, [], false⟩ " ctx").2
      (by decide) (by decide) (by decide)).1 rfl
  · exact ((C1_raw_cursor_rules ⟨[], "f", 7, [], true⟩ " ctx").2
      (by decide) (by decide) (by decide)).2.1 rfl
  · exact ((C1_raw_cursor_rules ⟨[], "f", 7, [], false⟩ "-gone").2
      (by decide) (by decide) (by decide)).2.2.1 (by decide)

/-- C2: in the structured scanner, per non-binary file with a usable path the
cursor starts at `0` and is threaded from hunk to hunk (not reset at hunk
boundaries); a context line flushes a non-empty pending buffer at the cursor
and then advances it unconditionally; an added line appends its content and
advances the cursor; a removed line flushes a non-empty pending buffer
without advancing the cursor; and a buffer still pending after the lines of
the final hunk is flushed at the final cursor value. -/
theorem C2_structured_rules :
    (∀ (d : GitDiff) (fp : String), d.is_binary = false →
       diffPath d = some fp →
       parseGitDiffs [d] = parseFileHunks fp d.hunks 0 []) ∧
    (∀ (fp : String) (h : Hunk) (hs : List Hunk) (cl : Int)
       (sugs : List CodeSuggestion),
       parseFileHunks fp (h :: hs) cl sugs =
         parseFileHunks fp hs (parseHunk h fp cl sugs).2
           (parseHunk h fp cl sugs).1) ∧
    (∀ (fp : String) (st : HunkState) (l : HunkLine), l.line_origin = ' ' →
       hunkStep fp st l =
         if st.new_code ≠ [] then
           ⟨st.suggestions ++ [⟨fp, st.current_line, st.new_code⟩],
            st.current_line + 1, []⟩
         else ⟨st.suggestions, st.current_line + 1, st.new_code⟩) ∧
    (∀ (fp : String) (st : HunkState) (l : HunkLine), l.line_origin = '+' →
       hunkStep fp st l =
         ⟨st.suggestions, st.current_line + 1, st.new_code ++ [l.content]⟩) ∧
    (∀ (fp : String) (st : HunkState) (l : HunkLine), l.line_origin = '-' →
       hunkStep fp st l =
         if st.new_code ≠ [] then
           ⟨st.suggestions ++ [⟨fp, st.current_line, st.new_code⟩],
            st.current_line, []⟩
         else st) ∧
    (∀ (h : Hunk) (fp : String) (cl : Int) (sugs : List CodeSuggestion),
       (h.lines.foldl (hunkStep fp) ⟨sugs, cl, []⟩).new_code ≠ [] →
         (parseHunk h fp cl sugs).1 =
           (h.lines.foldl (hunkStep fp) ⟨sugs, cl, []⟩).suggestions ++
             [⟨fp, (h.lines.foldl (hunkStep fp) ⟨sugs, cl, []⟩).current_line,
               (h.lines.foldl (hunkStep fp) ⟨sugs, cl, []⟩).new_code⟩]) := by
  refine ⟨?_, ?_, ?_, ?_, ?_, ?_⟩
  · intro d fp hb hp
    simp [parseGitDiffs, hb, hp]
  · intro fp h hs cl sugs
    simp only [parseFileHunks]
  · intro fp st l h
    simp only [hunkStep, h]
    split_ifs <;> simp_all
  · intro fp st l h
    simp only [hunkStep, h]
    split_ifs <;> simp_all
  · intro fp st l h
    simp only [hunkStep, h]
    split_ifs <;> simp_all
  · intro h fp cl sugs hg
    simp only [parseHunk]
    rw [if_pos hg]

/-- C2 witness: the structured-scanner rules instantiated on a concrete file
record, a context line, an added line, and a removed line. -/
theorem C2_witness :
    parseGitDiffs [⟨false, some "g", none, [⟨[⟨' ', "c"⟩]⟩]⟩] =
      parseFileHunks "g" [⟨[⟨' ', "c"⟩]⟩] 0 [] ∧
    hunkStep "g" ⟨[], 3, ["n"]⟩ ⟨' ', "c"⟩ = ⟨[⟨"g", 3, ["n"]⟩], 4, []⟩ ∧
    hunkStep "g" ⟨[], 3, []⟩ ⟨'+', "n"⟩ = ⟨[], 4, ["n"]⟩ ∧
    hunkStep "g" ⟨[], 3, ["n"]⟩ ⟨'-', "o"⟩ = ⟨[⟨"g", 3, ["n"]⟩], 3, []⟩ := by
  refine ⟨?_, ?_, ?_, ?_⟩
  · exact C2_structured_rules.1 _ "g" rfl (by decide)
  · exact (C2_structured_rules.2.2.1 "g" ⟨[], 3, ["n"]⟩ ⟨' ', "c"⟩
      rfl).trans (by decide)
  · exact (C2_structured_rules.2.2.2.1 "g" ⟨[], 3, []⟩ ⟨'+', "n"⟩
      rfl).trans (by decide)
  · exact (C2_structured_rules.2.2.2.2.1 "g" ⟨[], 3, ["n"]⟩ ⟨'-', "o"⟩
      rfl).trans (by decide)

/-- C5: emission invariants of both scanners: every emitted suggestion has a
non-empty file and a non-empty block; a step appends to the suggestion list
(discovery order) and only appends to the pending buffer (insertion order of
added lines) unless it clears it; and inputs with no new-file header (raw)
or with only binary/pathless records (structured) produce no suggestions. -/
theorem C5_emission_invariants :
    (∀ t : String, ∀ sug ∈ parse_raw_diff t,
       sug.file ≠ "" ∧ sug.suggestion ≠ []) ∧
    (∀ ds : List GitDiff, ∀ sug ∈ parseGitDiffs ds,
       sug.file ≠ "" ∧ sug.suggestion ≠ []) ∧
    (∀ (s : RawState) (line : String),
       ∃ t, (rawStep s line).suggestions = s.suggestions ++ t) ∧
    (∀ (fp : String) (st : HunkState) (l : HunkLine),
       ∃ t, (hunkStep fp st l).suggestions = st.suggestions ++ t) ∧
    (∀ (s : RawState) (line : String),
       (rawStep s line).new_code = [] ∨
       (rawStep s line).new_code = s.new_code ∨
       ∃ x, (rawStep s line).new_code = s.new_code ++ [x]) ∧
    (∀ (fp : String) (st : HunkState) (l : HunkLine),
       (hunkStep fp st l).new_code = [] ∨
       (hunkStep fp st l).new_code = st.new_code ∨
       (hunkStep fp st l).new_code = st.new_code ++ [l.content]) ∧
    (∀ t : String, (∀ l ∈ pySplitlines t, fileMatch l = none) →
       parse_raw_diff t = []) ∧
    (∀ ds : List GitDiff, (∀ d ∈ ds, d.is_binary = true ∨ diffPath d = none) →
       parseGitDiffs ds = []) := by
  refine ⟨?_, ?_, ?_, ?_, ?_, ?_, ?_, ?_⟩
  · intro t
    exact parseRawLines_good (pySplitlines t)
  · exact parseGitDiffs_good
  · intro s line
    rcases rawStep_suggestions_cases s line with h | ⟨-, -, n, h⟩
    · exact ⟨[], by simpa using h⟩
    · exact ⟨_, h⟩
  · intro fp st l
    rcases hunkStep_cases fp st l with h | ⟨-, h⟩
    · exact ⟨[], by simpa using h⟩
    · exact ⟨_, h⟩
  · exact rawStep_new_code_cases
  · exact hunkStep_new_code
  · intro t hq
    exact parseRawLines_no_file (pySplitlines t) hq
  · exact parseGitDiffs_skip

/-- C5 witness: the invariants instantiated on a concrete raw diff, a
concrete structured record, and concrete steps, with every hypothesis
discharged by evaluation. -/
theorem C5_witness :
    ("f" ≠ "" ∧ (["a"] : List String) ≠ []) ∧
    parse_raw_diff " x\n+a\n-b" = [] ∧
    parseGitDiffs [⟨true, some "f", none, []⟩, ⟨false, none, none, []⟩] = [] := by
  refine ⟨?_, ?_, ?_⟩
  · exact C5_emission_invariants.1 "+++ b/f\n@@ -1,1 +1,1 @@\n+a\n-x"
      ⟨"f", 1, ["a"]⟩ (by decide)
  · exact C5_emission_invariants.2.2.2.2.2.2.1 " x\n+a\n-b" (by decide)
  · exact C5_emission_invariants.2.2.2.2.2.2.2
      [⟨true, some "f", none, []⟩, ⟨false, none, none, []⟩] (by decide)

/-- C6 (amended): every suggestion emitted by the structured-hunk scanner has
a 1-based anchor (`line ≥ 1`); the raw-text scanner does not guarantee this
(it can emit `line = 0`, see the counterexample). -/
theorem C6_structured_line_bound (ds : List GitDiff) :
    ∀ sug ∈ parseGitDiffs ds, 1 ≤ sug.line :=
  parseGitDiffs_line_bound ds

/-- C6 witness: the bound instantiated on a concrete structured record whose
scan emits one suggestion at line 1. -/
theorem C6_witness : (1 : Int) ≤ (CodeSuggestion.mk "f" 1 ["a"]).line :=
  C6_structured_line_bound
    [⟨false, some "f", none, [⟨[⟨'+', "a"⟩, ⟨'-', "x"⟩]⟩]⟩]
    ⟨"f", 1, ["a"]⟩ (by decide)

/-- C7 (amended): in the raw-text scanner a suggestion flushed at a removed
line consists exactly of the added lines accumulated, in order, since the
last hunk header or previous flush; those added lines need not be contiguous
with the removal, because non-header lines that are not removed lines (in
particular context lines) leave the pending buffer untouched. -/
theorem C7_removal_flush (s : RawState) (line : String) :
    (fileMatch line = none → hunkMatch line = none →
     (strStarts line "-" ∧ ¬ strStarts line "---") →
     s.new_code ≠ [] → s.current_file ≠ "" →
       (rawStep s line).suggestions = s.suggestions ++
         [⟨s.current_file,
           (if s.removal_reached then s.current_line else s.current_line + 1),
           s.new_code⟩] ∧
       (rawStep s line).new_code = []) ∧
    (fileMatch line = none → hunkMatch line = none →
     ¬ (strStarts line "+" ∧ ¬ strStarts line "+++") →
     ¬ (strStarts line "-" ∧ ¬ strStarts line "---") →
       (rawStep s line).new_code = s.new_code ∧
       (rawStep s line).suggestions = s.suggestions) := by
  constructor
  · intro hf hh hd hnc hcf
    have hp : ¬ (strStarts line "+" ∧ ¬ strStarts line "+++") := by
      rintro ⟨hplus, -⟩
      have := strStarts_head "+" "-" rfl rfl hplus hd.1
      exact absurd this (by decide)
    rw [rawStep_other hf hh hp]
    exact rawOther_flush s line hd hnc hcf
  · intro hf hh hp hd
    rw [rawStep_other hf hh hp]
    exact ⟨(rawOther_nonremoval s line hd).2, (rawOther_nonremoval s line hd).1⟩

/-- C7 witness: the flush equation instantiated at a concrete state and
removed line, and buffer preservation at a concrete context line. -/
theorem C7_witness :
    (rawStep ⟨[], "f", 5, ["a"], false⟩ "-x").suggestions = [⟨"f", 6, ["a"]⟩] ∧
    (rawStep ⟨[], "f", 5, ["a"], false⟩ " ctx").new_code = ["a"] := by
  constructor
  · have h := (C7_removal_flush ⟨[], "f", 5, ["a"], false⟩ "-x").1
      (by decide) (by decide) (by decide) (by decide) (by decide)
    exact h.1.trans (by decide)
  · have h := (C7_removal_flush ⟨[], "f", 5, ["a"], false⟩ " ctx").2
      (by decide) (by decide) (by decide) (by decide)
    exact h.1

/-- C9: the facade raises exactly on unsupported input shapes (anything that
is not diff text, and structured records when GitPython support is absent),
and well-formed empty input never raises: the empty string and the empty
record collection both return an empty suggestion list. -/
theorem C9_dispatch_errors :
    (∀ (gs : Bool) (inp : DiffInput),
       (∃ e, parse_diff gs inp = Except.error e) ↔ ¬ supportedShape gs inp) ∧
    (∀ gs : Bool, parse_diff gs (DiffInput.text "") = Except.ok []) ∧
    parse_diff true (DiffInput.gitList []) = Except.ok [] := by
  refine ⟨?_, ?_, rfl⟩
  · intro gs inp
    cases inp <;> cases gs <;> simp [parse_diff, supportedShape]
  · intro gs
    show Except.ok (parseRawDiff "") = Except.ok []
    rfl

/-- C10: once the raw scanner has seen a new-file header, `current_file` can
never become empty again; and over any run of lines with no new-file header,
`current_file` is unchanged and every suggestion discovered during that run
is attributed to it (the most recently seen path). -/
theorem C10_file_persistence :
    (∀ (s : RawState) (line : String), s.current_file ≠ "" →
       (rawStep s line).current_file ≠ "") ∧
    (∀ (s : RawState) (lines : List String),
       (∀ l ∈ lines, fileMatch l = none) →
       (List.foldl rawStep s lines).current_file = s.current_file ∧
       ∃ t, (List.foldl rawStep s lines).suggestions = s.suggestions ++ t ∧
            ∀ x ∈ t, x.file = s.current_file) :=
  ⟨rawStep_file_ne, fun s lines hq => foldl_rawStep_track lines s hq⟩

/-- C10 witness: persistence instantiated on a concrete state and a concrete
header-free section (an old-file header line, a removal and a context
line). -/
theorem C10_witness :
    (rawStep ⟨[], "f", 0, [], false⟩ "@@ -1,1 +1,1 @@").current_file ≠ "" ∧
    (List.foldl rawStep ⟨[], "f", 0, ["a"], false⟩
      ["--- a/other.py", "-x", " c"]).current_file = "f" := by
  constructor
  · exact C10_file_persistence.1 ⟨[], "f", 0, [], false⟩ "@@ -1,1 +1,1 @@"
      (by decide)
  · exact (C10_file_persistence.2 ⟨[], "f", 0, ["a"], false⟩
      ["--- a/other.py", "-x", " c"] (by decide)).1

end Suggestions
